import Mathlib

/-!
Verification of the buffering core of the travelgateX/go-io repository.

The development shallowly embeds the internal fixed-capacity buffer
(`internal/buffer.go`), the leaky buffer pool (`internal/pool.go`), the
lock-based buffered writer (`syncio/buffer.go`) and the channel-based
writer (`asyncio/ticked_buffer.go`).  Bytes are modelled as `Nat`, byte
slices as `List Nat`, Go errors as `Option String` (with `none` standing
for a nil error).  Statefulness is made explicit: every method takes a
state and returns the updated state together with the values the Go
method returns.  The asynchronous flush goroutines are sequentialised at
their dispatch point; the list `sink` records, in dispatch order, the
payload of every write issued to the underlying writer.
-/

/-- Embedding of `internal.Buffer` (internal/buffer.go): a fixed size byte
buffer backed by storage `buf` (created by `make([]byte, size)`, so its
length equals its capacity and never changes) holding `n` used bytes. -/
structure Internal.Buffer where
  buf : List Nat
  n : Nat
deriving Repr, DecidableEq

/-- `newBuffer(size)` allocates zeroed storage of the given size. -/
def Internal.newBuffer (size : Nat) : Internal.Buffer :=
  { buf := List.replicate size 0, n := 0 }

/-- `Buffered()` returns the size of the data written in the buffer. -/
def Internal.Buffer.Buffered (b : Internal.Buffer) : Nat :=
  b.n

/-- `Available()` returns the writable space in the buffer.  The Go code
uses `cap(b.buf) - b.n`; every buffer is created with `make([]byte, size)`
so `cap` coincides with the modelled storage length. -/
def Internal.Buffer.Available (b : Internal.Buffer) : Nat :=
  b.buf.length - b.n

/-- `Reset()` sets the buffer as empty. -/
def Internal.Buffer.Reset (b : Internal.Buffer) : Internal.Buffer :=
  { b with n := 0 }

/-- The bytes currently held by the buffer: the first `n` bytes of the
backing storage. -/
def Internal.Buffer.contents (b : Internal.Buffer) : List Nat :=
  b.buf.take b.n

/-- Result of `internal.Buffer.Write`: the buffer after the call and the
`(int, error)` pair the Go method returns. -/
structure Internal.WriteResult where
  buf : Internal.Buffer
  n : Nat
  err : Option String
deriving Repr, DecidableEq

/-- Embedding of `internal.Buffer.Write` (internal/buffer.go).  It fails
when `len(p) > b.Available()`; otherwise it copies `p` into the storage
starting at offset `n`.  Go `copy(b.buf[b.n:], p)` transfers
`min (b.buf.length - b.n) p.length` bytes; the second error branch of the
source (fewer bytes copied than `len(p)`) is kept, mutating the storage
but not `n`, exactly as the source does. -/
def Internal.Buffer.write (b : Internal.Buffer) (p : List Nat) : Internal.WriteResult :=
  if p.length > b.Available then
    { buf := b, n := 0, err := some "buffer write error: not enough available memory" }
  else
    let m := min (b.buf.length - b.n) p.length
    let storage := b.buf.take b.n ++ p.take m ++ b.buf.drop (b.n + m)
    if m ≠ p.length then
      { buf := { b with buf := storage }, n := 0,
        err := some "buffer write error: fewer bytes were written" }
    else
      { buf := { buf := storage, n := b.n + m }, n := m, err := none }

/-- Result of `internal.Buffer.WriteTo`: the buffer after the call, the
`(int64, error)` pair returned, and the list of calls issued to the sink
(each element is the payload of one sink write). -/
structure Internal.DrainResult where
  buf : Internal.Buffer
  n : Nat
  err : Option String
  sinkCalls : List (List Nat)
deriving Repr, DecidableEq

/-- Embedding of `internal.Buffer.WriteTo` (internal/buffer.go).  The sink
is a function from the payload to the `(int, error)` pair it reports.  The
buffer issues exactly one sink write of `b.buf[:b.n]`, then checks the
reported count: more than `b.n` is an error, a sink error is propagated,
fewer than `b.n` without a sink error is `io.ErrShortWrite`, and on
success the buffer is reset. -/
def Internal.Buffer.writeTo (b : Internal.Buffer) (sink : List Nat → Nat × Option String) :
    Internal.DrainResult :=
  let payload := b.contents
  let r := sink payload
  let m := r.1
  if m > b.n then
    { buf := b, n := 0, err := some "writed more bytes than the buffered",
      sinkCalls := [payload] }
  else if r.2.isSome then
    { buf := b, n := m, err := r.2, sinkCalls := [payload] }
  else if m ≠ b.n then
    { buf := b, n := m, err := some "short write", sinkCalls := [payload] }
  else
    { buf := b.Reset, n := m, err := none, sinkCalls := [payload] }

/-- Embedding of `internal.BufferPool` (internal/pool.go): a leaky pool
whose free list models the buffered channel `free` (capacity `poolSize`)
and whose `bufcap` is the capacity new buffers are allocated with. -/
structure Internal.BufferPool where
  free : List Internal.Buffer
  poolSize : Nat
  bufcap : Nat
deriving Repr, DecidableEq

/-- `NewBufferPool(size, bufcap)` starts with an empty free list. -/
def Internal.NewBufferPool (size bufcap : Nat) : Internal.BufferPool :=
  { free := [], poolSize := size, bufcap := bufcap }

/-- Embedding of `BufferPool.Get`: return an idle buffer when one exists
(channel receive takes the oldest element), otherwise allocate a fresh one
and report the allocation. -/
def Internal.BufferPool.get (p : Internal.BufferPool) :
    Internal.Buffer × Internal.BufferPool × Bool :=
  match p.free with
  | [] => (Internal.newBuffer p.bufcap, p, true)
  | b :: rest => (b, { p with free := rest }, false)

/-- Embedding of `BufferPool.Put`: reset the buffer, then retain it only
when the free channel has room (`free.length < poolSize`); otherwise the
buffer is dropped on the floor without blocking. -/
def Internal.BufferPool.put (p : Internal.BufferPool) (b : Internal.Buffer) :
    Internal.BufferPool :=
  let b := b.Reset
  if p.free.length < p.poolSize then { p with free := p.free ++ [b] } else p

/-- One pool operation: an acquire, or a release of a given buffer. -/
inductive Internal.PoolOp where
  | get : Internal.PoolOp
  | put : Internal.Buffer → Internal.PoolOp
deriving Repr, DecidableEq

/-- Effect of a pool operation on the pool state (the buffer a `get`
returns is handed to the caller and leaves the pool). -/
def Internal.BufferPool.step (p : Internal.BufferPool) (op : Internal.PoolOp) :
    Internal.BufferPool :=
  match op with
  | .get => p.get.2.1
  | .put b => p.put b

/-- Pool state reached from `NewBufferPool size bufcap` after a sequence
of operations. -/
def Internal.poolRun (size bufcap : Nat) (ops : List Internal.PoolOp) :
    Internal.BufferPool :=
  ops.foldl Internal.BufferPool.step (Internal.NewBufferPool size bufcap)

/-!
Embedding of `syncio.Buffer` (syncio/buffer.go), the lock-based buffered
writer.  Every `Write` holds the mutex `bufmu`, so the sequence of write
and flush steps is linearised; the model applies them sequentially.  The
flush goroutine drains the detached buffer to the underlying writer and
puts it back in the pool; under the never-failing, never-short-writing
sink considered by the claims (each sink call reports its full payload
length and a nil error) the drain always takes the success path of
`WriteTo`, so the model records the dispatched payload in `sink` and
returns the reset buffer to the pool at the dispatch point.
-/

/-- State of a `syncio.Buffer`: the current internal buffer, the pool,
the closed flag, the configured buffer size, the allocation counter of
`Stats`, and the log of payloads dispatched to the underlying writer. -/
structure Syncio.Buffer where
  buf : Internal.Buffer
  pool : Internal.BufferPool
  closed : Bool
  bufSize : Nat
  bufferAllocs : Nat
  sink : List (List Nat)
deriving Repr, DecidableEq

/-- `getBuffer`: take a buffer from the pool, counting allocations. -/
def Syncio.Buffer.getBuffer (s : Syncio.Buffer) :
    Internal.Buffer × Internal.BufferPool × Nat :=
  let (b, pool, alloc) := s.pool.get
  (b, pool, s.bufferAllocs + (if alloc then 1 else 0))

/-- Embedding of `syncio.Buffer.flush`: when the current buffer is
non-empty, detach it, install a fresh buffer from the pool, and dispatch
the detached buffer's `WriteTo` to the underlying writer in background;
with the never-failing sink the drain succeeds, so its payload is logged
and the reset buffer returns to the pool. -/
def Syncio.Buffer.flush (s : Syncio.Buffer) : Syncio.Buffer :=
  if s.buf.Buffered = 0 then s
  else
    let detached := s.buf
    let (fresh, pool, allocs) := s.getBuffer
    { s with
      buf := fresh
      pool := pool.put detached.Reset
      bufferAllocs := allocs
      sink := s.sink ++ [detached.contents] }

/-- The state a buffered-path write appends into: the current state, or
the flushed state when the payload outgrows the available space. -/
def Syncio.Buffer.bufferedTarget (s : Syncio.Buffer) (p : List Nat) : Syncio.Buffer :=
  if p.length > s.buf.Available then s.flush else s

/-- Result of `syncio.Buffer.Write`: state after the call plus the
`(int, error)` pair returned to the caller. -/
structure Syncio.WriteResult where
  state : Syncio.Buffer
  n : Nat
  err : Option String
deriving Repr, DecidableEq

/-- Embedding of `syncio.Buffer.Write`.  A closed writer rejects the
write.  A payload with `len(p) >= bufSize` is copied to a fresh slice and
dispatched directly to the underlying writer, bypassing buffer and pool.
Otherwise, if the payload outgrows the available space the current buffer
is flushed first, and the payload is appended to the (possibly fresh)
current buffer; the error of the internal `buf.Write` is ignored, exactly
as in the source, and `(len(p), nil)` is returned. -/
def Syncio.Buffer.write (s : Syncio.Buffer) (p : List Nat) : Syncio.WriteResult :=
  if s.closed then
    { state := s, n := 0, err := some "write on closed writer" }
  else if p.length ≥ s.bufSize then
    { state := { s with sink := s.sink ++ [p] }, n := p.length, err := none }
  else
    let t := s.bufferedTarget p
    { state := { t with buf := (t.buf.write p).buf }, n := p.length, err := none }

/-- Embedding of `syncio.Buffer.Close`: set the closed flag, flush the
remaining data, wait for in-flight writes (a no-op in the sequential
model). -/
def Syncio.Buffer.close (s : Syncio.Buffer) : Syncio.Buffer :=
  Syncio.Buffer.flush { s with closed := true }

/-- Embedding of `syncio.NewBuffer` restricted to the size options: zero
sizes fall back to the defaults (4096-byte buffers, pool of 2), the pool
is created, and the initial current buffer is taken from it. -/
def Syncio.NewBuffer (bufSize poolSize : Nat) : Syncio.Buffer :=
  let size := if bufSize = 0 then 4096 else bufSize
  let psize := if poolSize = 0 then 2 else poolSize
  let pool := Internal.NewBufferPool psize size
  let (b, pool, alloc) := pool.get
  { buf := b, pool := pool, closed := false, bufSize := size,
    bufferAllocs := if alloc then 1 else 0, sink := [] }

/-- Run a sequence of writes through a `syncio.Buffer`. -/
def Syncio.Buffer.runWrites (s : Syncio.Buffer) (ps : List (List Nat)) : Syncio.Buffer :=
  ps.foldl (fun s p => (s.write p).state) s

/-- Whether the constructor `syncio.NewBuffer` starts the ticker
goroutine: only when the configured flush interval is positive
(`time.Duration` is a signed integer count of nanoseconds). -/
def Syncio.tickerStarted (flushInterval : Int) : Bool :=
  flushInterval > 0

/-!
Embedding of the admission side of `asyncio.TickedBuffer`
(asyncio/ticked_buffer.go): the `data` channel of capacity `queueSize`,
the closed flag and the dropped-writes counter, as seen by `Write`.
-/

/-- Admission state of an `asyncio.TickedBuffer`. -/
structure Asyncio.TickedBuffer where
  closed : Bool
  data : List (List Nat)
  queueSize : Nat
  droppedWrites : Nat
deriving Repr, DecidableEq

/-- Result of `asyncio.TickedBuffer.Write`. -/
structure Asyncio.WriteResult where
  state : Asyncio.TickedBuffer
  n : Nat
  err : Option String
deriving Repr, DecidableEq

/-- Embedding of `asyncio.TickedBuffer.Write`: rejected when closed; a
non-blocking channel send succeeds when the admission channel has room,
otherwise the payload is discarded, the dropped-writes counter is
incremented and `ErrBlockingWrite` is returned. -/
def Asyncio.TickedBuffer.write (s : Asyncio.TickedBuffer) (p : List Nat) :
    Asyncio.WriteResult :=
  if s.closed then
    { state := s, n := 0, err := some "write on closed writer" }
  else if s.data.length < s.queueSize then
    { state := { s with data := s.data ++ [p] }, n := p.length, err := none }
  else
    { state := { s with droppedWrites := s.droppedWrites + 1 }, n := 0,
      err := some "write was blocking" }

/-- Model of Go's `time.NewTicker` (standard library): it panics when the
duration is non-positive, otherwise it yields a ticker. -/
def Go.newTicker (d : Int) : Except String Unit :=
  if d ≤ 0 then Except.error "non-positive interval for NewTicker" else Except.ok ()

/-- The first action of `asyncio.TickedBuffer.listen` is
`time.NewTicker(tb.flushInterval)`, performed unconditionally; the
goroutine only proceeds past this point when the ticker construction does
not panic. -/
def Asyncio.listenInit (flushInterval : Int) : Except String Unit :=
  Go.newTicker flushInterval

/-- Whether a pool operation only releases buffers whose storage has the
pool's configured capacity (the writers only ever release buffers they
acquired from the same pool). -/
def Internal.PoolOp.capOk (bufcap : Nat) : Internal.PoolOp → Bool
  | Internal.PoolOp.get => true
  | Internal.PoolOp.put b => b.buf.length == bufcap

/-! ### Invariant of the lock-based writer -/

/-- Reachable-state invariant of a `syncio.Buffer`: the current buffer
has storage of exactly `bufSize` bytes and a consistent used count, and
the pool allocates and retains only empty `bufSize`-capacity buffers. -/
def Syncio.Inv (s : Syncio.Buffer) : Prop :=
  s.buf.n ≤ s.buf.buf.length
  ∧ s.buf.buf.length = s.bufSize
  ∧ s.pool.bufcap = s.bufSize
  ∧ ∀ b ∈ s.pool.free, b.n = 0 ∧ b.buf.length = s.bufSize

instance (s : Syncio.Buffer) : Decidable (Syncio.Inv s) := by
  unfold Syncio.Inv
  infer_instance

/-- Total number of bytes dispatched to the underlying writer. -/
def Syncio.sinkBytes (s : Syncio.Buffer) : Nat :=
  (s.sink.map List.length).sum

/-!
The buffer-owning side of `asyncio.TickedBuffer.listen`: the goroutine
state that owns the current buffer, the pool and the sink dispatch log.
Its routing of a received payload (lines 108-129 of the source) is the
same as the open-writer path of `syncio.Buffer.Write`, which the
simulation lemmas below make precise.
-/

/-- State owned by the `listen` goroutine of an `asyncio.TickedBuffer`. -/
structure Asyncio.Flusher where
  buf : Internal.Buffer
  pool : Internal.BufferPool
  size : Nat
  bufferAllocs : Nat
  sink : List (List Nat)
deriving Repr, DecidableEq

/-- `TickedBuffer.getBuffer`: take a buffer from the pool, counting
allocations. -/
def Asyncio.Flusher.getBuffer (f : Asyncio.Flusher) :
    Internal.Buffer × Internal.BufferPool × Nat :=
  let (b, pool, alloc) := f.pool.get
  (b, pool, f.bufferAllocs + (if alloc then 1 else 0))

/-- Embedding of `asyncio.TickedBuffer.flush`: identical to the syncio
flush — detach the non-empty current buffer, install a fresh one, and
dispatch the drain (which under the never-failing sink logs the contents
and returns the reset buffer to the pool). -/
def Asyncio.Flusher.flush (f : Asyncio.Flusher) : Asyncio.Flusher :=
  if f.buf.Buffered = 0 then f
  else
    let detached := f.buf
    let (fresh, pool, allocs) := f.getBuffer
    { f with
      buf := fresh
      pool := pool.put detached.Reset
      bufferAllocs := allocs
      sink := f.sink ++ [detached.contents] }

/-- The buffer a queued payload is appended into: the current one, or the
freshly installed one after a flush when the payload would outgrow it. -/
def Asyncio.Flusher.bufferedTarget (f : Asyncio.Flusher) (p : List Nat) : Asyncio.Flusher :=
  if p.length > f.buf.Available then f.flush else f

/-- The `case p := <-tb.data` branch of `listen`: a payload at least as
long as the buffer size is dispatched directly to the underlying writer;
otherwise a flush frees the buffer first if needed and the payload is
appended to the current buffer. -/
def Asyncio.Flusher.handle (f : Asyncio.Flusher) (p : List Nat) : Asyncio.Flusher :=
  if p.length ≥ f.size then { f with sink := f.sink ++ [p] }
  else
    { f.bufferedTarget p with buf := ((f.bufferedTarget p).buf.write p).buf }

/-- Processing by `listen` of the payloads admitted to the channel, in
admission order, with no intervening timer tick. -/
def Asyncio.Flusher.drainQueue (f : Asyncio.Flusher) (ps : List (List Nat)) :
    Asyncio.Flusher :=
  ps.foldl Asyncio.Flusher.handle f

/-- The flusher state when `listen` starts: a fresh pool and the first
current buffer taken from it (`NewTickedBuffer` applies no size
defaults). -/
def Asyncio.newFlusher (bufSize poolSize : Nat) : Asyncio.Flusher :=
  let pool := Internal.NewBufferPool poolSize bufSize
  let (b, pool, alloc) := pool.get
  { buf := b, pool := pool, size := bufSize,
    bufferAllocs := if alloc then 1 else 0, sink := [] }

/-- After `Close`, `listen` exits its loop once the channel is empty and
flushes the residual buffer; this is the sink log at that point. -/
def Asyncio.listenClose (bufSize poolSize : Nat) (ps : List (List Nat)) : Asyncio.Flusher :=
  ((Asyncio.newFlusher bufSize poolSize).drainQueue ps).flush

/-- Total number of bytes the flusher dispatched to the underlying
writer. -/
def Asyncio.flusherSinkBytes (f : Asyncio.Flusher) : Nat :=
  (f.sink.map List.length).sum

/-- The open lock-based writer carrying the same buffer, pool and sink
log as a flusher state: the routing of `listen` coincides with the open
path of `syncio.Buffer.Write`. -/
def Asyncio.Flusher.toSyncio (f : Asyncio.Flusher) : Syncio.Buffer :=
  { buf := f.buf, pool := f.pool, closed := false, bufSize := f.size,
    bufferAllocs := f.bufferAllocs, sink := f.sink }

/-! ### Helper lemmas -/

lemma Internal.Buffer.write_min_eq (b : Internal.Buffer) (p : List Nat)
    (h : p.length ≤ b.Available) :
    min (b.buf.length - b.n) p.length = p.length := by
  unfold Internal.Buffer.Available at h
  omega

lemma Internal.Buffer.write_ok (b : Internal.Buffer) (p : List Nat)
    (h : p.length ≤ b.Available) :
    b.write p =
      { buf := { buf := b.buf.take b.n ++ p ++ b.buf.drop (b.n + p.length),
                 n := b.n + p.length },
        n := p.length, err := none } := by
  unfold Internal.Buffer.write
  rw [if_neg (by omega), b.write_min_eq p h]
  simp

lemma Internal.Buffer.contents_write_ok (b : Internal.Buffer) (p : List Nat)
    (h : p.length ≤ b.Available) :
    ((b.write p).buf).contents = b.contents ++ p := by
  rw [b.write_ok p h]
  unfold Internal.Buffer.contents Internal.Buffer.Available at *
  rcases le_or_lt b.n b.buf.length with hle | hlt
  · have h1 : (b.buf.take b.n ++ p).length = b.n + p.length := by
      simp [List.length_take, Nat.min_eq_left hle]
    show ((b.buf.take b.n ++ p) ++ b.buf.drop (b.n + p.length)).take (b.n + p.length)
        = b.buf.take b.n ++ p
    exact List.take_left' h1
  · have hp : p.length = 0 := by omega
    have hpnil : p = [] := List.eq_nil_of_length_eq_zero hp
    subst hpnil
    simp

/-! ### Claim theorems for the internal fixed buffer -/

/-- C4: `internal.Buffer.Write` returns an error if and only if the
payload exceeds the available space; on error the buffer is unchanged (so
nothing is written and the buffered count stays), and on success the
entire payload is appended, the buffered count grows by `len(p)` and
`len(p)` is returned — a write is never partial. -/
theorem internal_write_all_or_nothing (b : Internal.Buffer) (p : List Nat) :
    ((b.write p).err.isSome ↔ p.length > b.Available)
    ∧ (p.length > b.Available →
        (b.write p).buf = b ∧ (b.write p).n = 0)
    ∧ (p.length ≤ b.Available →
        (b.write p).err = none ∧ (b.write p).n = p.length
        ∧ (b.write p).buf.Buffered = b.Buffered + p.length
        ∧ (b.write p).buf.contents = b.contents ++ p) := by
  by_cases h : p.length > b.Available
  · refine ⟨?_, fun _ => ?_, fun hle => absurd hle (by omega)⟩
    · unfold Internal.Buffer.write
      rw [if_pos h]
      simpa using h
    · unfold Internal.Buffer.write
      rw [if_pos h]
      exact ⟨rfl, rfl⟩
  · push_neg at h
    have hok := b.write_ok p h
    have hc := b.contents_write_ok p h
    refine ⟨?_, fun hgt => absurd hgt (by omega), fun _ => ?_⟩
    · rw [hok]
      simp
      omega
    · exact ⟨by rw [hok], by rw [hok],
        by rw [hok]; simp [Internal.Buffer.Buffered], hc⟩

/-- Witness for C4 at a concrete buffer and payload. -/
theorem internal_write_all_or_nothing_witness :
    ((Internal.newBuffer 4).write [1, 2]).err = none
    ∧ ((Internal.newBuffer 4).write [1, 2]).buf.contents = [1, 2] := by
  have h := (internal_write_all_or_nothing (Internal.newBuffer 4) [1, 2]).2.2 (by decide)
  refine ⟨h.1, ?_⟩
  have hc := h.2.2.2
  simpa [Internal.newBuffer, Internal.Buffer.contents] using hc

/-- C5: draining a buffer holding `n` bytes via `WriteTo` issues exactly
one sink write of exactly those `n` bytes; when the sink reports fewer
than `n` bytes without an error the result is `io.ErrShortWrite`; on
success (sink reports `n` bytes, no error) the buffered count is reset to
0 while the storage is kept for reuse, and `n` is returned. -/
theorem internal_writeTo_single_drain (b : Internal.Buffer)
    (sink : List Nat → Nat × Option String) (hn : b.n ≤ b.buf.length) :
    (b.writeTo sink).sinkCalls = [b.contents]
    ∧ b.contents.length = b.Buffered
    ∧ (∀ m : Nat, sink b.contents = (m, none) → m < b.Buffered →
        (b.writeTo sink).err = some "short write" ∧ (b.writeTo sink).buf = b)
    ∧ (sink b.contents = (b.Buffered, none) →
        (b.writeTo sink).err = none ∧ (b.writeTo sink).buf.Buffered = 0
        ∧ (b.writeTo sink).buf.buf = b.buf ∧ (b.writeTo sink).n = b.Buffered) := by
  refine ⟨?_, ?_, ?_, ?_⟩
  · simp only [Internal.Buffer.writeTo]
    split
    · rfl
    · split
      · rfl
      · split
        · rfl
        · rfl
  · simp [Internal.Buffer.contents, Internal.Buffer.Buffered, Nat.min_eq_left hn]
  · intro m hsink hm
    unfold Internal.Buffer.Buffered at hm
    simp only [Internal.Buffer.writeTo]
    rw [hsink]
    rw [if_neg (by simp; omega)]
    simp only [Option.isSome_none, Bool.false_eq_true, if_false]
    rw [if_pos (by simp; omega)]
    exact ⟨rfl, rfl⟩
  · intro hsink
    unfold Internal.Buffer.Buffered at hsink
    simp only [Internal.Buffer.writeTo]
    rw [hsink]
    rw [if_neg (by simp)]
    simp only [Option.isSome_none, Bool.false_eq_true, if_false]
    rw [if_neg (by simp)]
    exact ⟨rfl, rfl, rfl, rfl⟩

/-- Witness for C5 at a concrete buffer and a well-behaved sink. -/
theorem internal_writeTo_single_drain_witness :
    (({ buf := [7, 8, 9], n := 2 } : Internal.Buffer).writeTo
        (fun p => (p.length, none))).sinkCalls = [[7, 8]]
    ∧ (({ buf := [7, 8, 9], n := 2 } : Internal.Buffer).writeTo
        (fun p => (p.length, none))).buf.Buffered = 0 := by
  have h := internal_writeTo_single_drain ({ buf := [7, 8, 9], n := 2 } : Internal.Buffer)
      (fun p => (p.length, none)) (by decide)
  refine ⟨?_, (h.2.2.2 (by rfl)).2.1⟩
  rw [h.1]
  rfl

/-! ### Claim theorems for the buffer pool -/

lemma Internal.BufferPool.step_poolSize (p : Internal.BufferPool) (op : Internal.PoolOp) :
    (p.step op).poolSize = p.poolSize := by
  cases op with
  | get =>
    obtain ⟨free, ps, bc⟩ := p
    cases free <;> rfl
  | put b =>
    simp only [Internal.BufferPool.step, Internal.BufferPool.put]
    split <;> rfl

lemma Internal.BufferPool.step_bufcap (p : Internal.BufferPool) (op : Internal.PoolOp) :
    (p.step op).bufcap = p.bufcap := by
  cases op with
  | get =>
    obtain ⟨free, ps, bc⟩ := p
    cases free <;> rfl
  | put b =>
    simp only [Internal.BufferPool.step, Internal.BufferPool.put]
    split <;> rfl

lemma Internal.BufferPool.step_len (p : Internal.BufferPool) (op : Internal.PoolOp)
    (h : p.free.length ≤ p.poolSize) :
    (p.step op).free.length ≤ (p.step op).poolSize := by
  cases op with
  | get =>
    obtain ⟨free, ps, bc⟩ := p
    cases free with
    | nil => exact h
    | cons a rest =>
      simp only [Internal.BufferPool.step, Internal.BufferPool.get] at *
      simp at *
      omega
  | put b =>
    simp only [Internal.BufferPool.step, Internal.BufferPool.put]
    split
    · simp
      omega
    · exact h

lemma Internal.poolFold_len (ops : List Internal.PoolOp) :
    ∀ p : Internal.BufferPool, p.free.length ≤ p.poolSize →
      (ops.foldl Internal.BufferPool.step p).free.length
          ≤ (ops.foldl Internal.BufferPool.step p).poolSize
      ∧ (ops.foldl Internal.BufferPool.step p).poolSize = p.poolSize := by
  induction ops with
  | nil => exact fun p h => ⟨h, rfl⟩
  | cons op rest ih =>
    intro p h
    simp only [List.foldl_cons]
    rcases ih (p.step op) (p.step_len op h) with ⟨h1, h2⟩
    exact ⟨h1, h2.trans (p.step_poolSize op)⟩

/-- C8: starting from `NewBufferPool size bufcap`, after any sequence of
`Get`/`Put` operations the number of idle buffers retained in the pool
never exceeds `size`; a `Put` when the idle set is at its bound leaves the
idle set unchanged (the buffer is discarded without blocking), and a `Put`
below the bound resets the buffer and appends it to the idle set. -/
theorem bufferPool_retains_at_most_poolSize (size bufcap : Nat)
    (ops : List Internal.PoolOp) (p : Internal.BufferPool) (b : Internal.Buffer) :
    (Internal.poolRun size bufcap ops).free.length ≤ size
    ∧ (p.put b).free =
        (if p.free.length < p.poolSize then p.free ++ [b.Reset] else p.free) := by
  constructor
  · have h := Internal.poolFold_len ops (Internal.NewBufferPool size bufcap)
      (by simp [Internal.NewBufferPool])
    have hsz : (Internal.NewBufferPool size bufcap).poolSize = size := rfl
    unfold Internal.poolRun
    omega
  · simp only [Internal.BufferPool.put]
    split <;> rfl

lemma Internal.BufferPool.step_free_inv (p : Internal.BufferPool) (op : Internal.PoolOp)
    (hcap : Internal.PoolOp.capOk p.bufcap op = true)
    (h : ∀ b ∈ p.free, b.n = 0 ∧ b.buf.length = p.bufcap) :
    ∀ b ∈ (p.step op).free, b.n = 0 ∧ b.buf.length = p.bufcap := by
  cases op with
  | get =>
    obtain ⟨free, ps, bc⟩ := p
    cases free with
    | nil => exact h
    | cons a rest =>
      intro b hb
      exact h b (List.mem_cons_of_mem a hb)
  | put c =>
    simp only [Internal.PoolOp.capOk, beq_iff_eq] at hcap
    simp only [Internal.BufferPool.step, Internal.BufferPool.put]
    split
    · intro b hb
      rcases List.mem_append.mp hb with hb | hb
      · exact h b hb
      · rcases List.mem_singleton.mp hb with rfl
        exact ⟨rfl, hcap⟩
    · exact h

lemma Internal.poolFold_free_inv (ops : List Internal.PoolOp) :
    ∀ p : Internal.BufferPool,
      (∀ op ∈ ops, Internal.PoolOp.capOk p.bufcap op = true) →
      (∀ b ∈ p.free, b.n = 0 ∧ b.buf.length = p.bufcap) →
      (∀ b ∈ (ops.foldl Internal.BufferPool.step p).free,
          b.n = 0 ∧ b.buf.length = p.bufcap)
      ∧ (ops.foldl Internal.BufferPool.step p).bufcap = p.bufcap := by
  induction ops with
  | nil => exact fun p _ h => ⟨h, rfl⟩
  | cons op rest ih =>
    intro p hcap h
    simp only [List.foldl_cons]
    have hstep := p.step_free_inv op (hcap op (List.mem_cons_self op rest)) h
    have hbc := p.step_bufcap op
    have hcap' : ∀ o ∈ rest, Internal.PoolOp.capOk (p.step op).bufcap o = true := by
      intro o ho
      rw [hbc]
      exact hcap o (List.mem_cons_of_mem op ho)
    have hstep' : ∀ b ∈ (p.step op).free, b.n = 0 ∧ b.buf.length = (p.step op).bufcap := by
      intro b hb
      rw [hbc]
      exact hstep b hb
    rcases ih (p.step op) hcap' hstep' with ⟨h1, h2⟩
    refine ⟨fun b hb => ?_, h2.trans hbc⟩
    have := h1 b hb
    rwa [hbc] at this

/-- C10: after any sequence of pool operations in which every released
buffer has the pool's configured storage capacity, the buffer returned by
`Get` is empty (`Buffered() = 0`) and offers its full capacity
(`Available() = bufcap`): a fresh allocation starts empty, and `Put`
resets a buffer before retaining it, so no stale bytes can leak out of a
recycled buffer. -/
theorem bufferPool_get_returns_empty (size bufcap : Nat) (ops : List Internal.PoolOp)
    (h : ∀ op ∈ ops, Internal.PoolOp.capOk bufcap op = true) :
    ((Internal.poolRun size bufcap ops).get).1.Buffered = 0
    ∧ ((Internal.poolRun size bufcap ops).get).1.Available = bufcap := by
  have hinv := Internal.poolFold_free_inv ops (Internal.NewBufferPool size bufcap)
    (by simpa [Internal.NewBufferPool] using h)
    (by simp [Internal.NewBufferPool])
  rcases hinv with ⟨hfree, hbc⟩
  unfold Internal.poolRun at *
  set q := ops.foldl Internal.BufferPool.step (Internal.NewBufferPool size bufcap) with hq
  have hbc' : q.bufcap = bufcap := hbc
  obtain ⟨free, ps, bc⟩ := q
  cases free with
  | nil =>
    simp only [Internal.BufferPool.get, Internal.newBuffer, Internal.Buffer.Buffered,
      Internal.Buffer.Available]
    simp at hbc' ⊢
    omega
  | cons a rest =>
    have ha := hfree a (List.mem_cons_self a rest)
    simp only [Internal.BufferPool.get, Internal.Buffer.Buffered, Internal.Buffer.Available]
    have h0 : a.n = 0 := ha.1
    have hlen : a.buf.length = bufcap := ha.2
    exact ⟨h0, by omega⟩

/-- Witness for C10 on a concrete operation sequence: a get, a release of
an oversubscribed dirty buffer, and another get. -/
theorem bufferPool_get_returns_empty_witness :
    ((Internal.poolRun 2 3
        [Internal.PoolOp.get,
         Internal.PoolOp.put { buf := [5, 6, 7], n := 2 },
         Internal.PoolOp.get]).get).1.Buffered = 0
    ∧ ((Internal.poolRun 2 3
        [Internal.PoolOp.get,
         Internal.PoolOp.put { buf := [5, 6, 7], n := 2 },
         Internal.PoolOp.get]).get).1.Available = 3 :=
  bufferPool_get_returns_empty 2 3
    [Internal.PoolOp.get,
     Internal.PoolOp.put { buf := [5, 6, 7], n := 2 },
     Internal.PoolOp.get]
    (by decide)

lemma Internal.BufferPool.get_spec (p : Internal.BufferPool)
    (h : ∀ b ∈ p.free, b.n = 0 ∧ b.buf.length = p.bufcap) :
    p.get.1.n = 0 ∧ p.get.1.buf.length = p.bufcap
    ∧ (∀ b ∈ p.get.2.1.free, b.n = 0 ∧ b.buf.length = p.bufcap)
    ∧ p.get.2.1.bufcap = p.bufcap ∧ p.get.2.1.poolSize = p.poolSize := by
  obtain ⟨free, ps, bc⟩ := p
  cases free with
  | nil =>
    exact ⟨rfl, by simp [Internal.BufferPool.get, Internal.newBuffer],
      by simp [Internal.BufferPool.get], rfl, rfl⟩
  | cons a rest =>
    have ha := h a (List.mem_cons_self a rest)
    exact ⟨ha.1, ha.2, fun b hb => h b (List.mem_cons_of_mem a hb), rfl, rfl⟩

lemma Internal.BufferPool.put_spec (p : Internal.BufferPool) (c : Internal.Buffer)
    (hc : c.buf.length = p.bufcap)
    (h : ∀ b ∈ p.free, b.n = 0 ∧ b.buf.length = p.bufcap) :
    (∀ b ∈ (p.put c).free, b.n = 0 ∧ b.buf.length = p.bufcap)
    ∧ (p.put c).bufcap = p.bufcap ∧ (p.put c).poolSize = p.poolSize := by
  refine ⟨?_, ?_, ?_⟩
  · simp only [Internal.BufferPool.put]
    split
    · intro b hb
      rcases List.mem_append.mp hb with hb | hb
      · exact h b hb
      · rcases List.mem_singleton.mp hb with rfl
        exact ⟨rfl, hc⟩
    · exact h
  · simp only [Internal.BufferPool.put]
    split <;> rfl
  · simp only [Internal.BufferPool.put]
    split <;> rfl

lemma Syncio.Buffer.getBuffer_eq (s : Syncio.Buffer) :
    s.getBuffer = (s.pool.get.1, s.pool.get.2.1,
      s.bufferAllocs + (if s.pool.get.2.2 then 1 else 0)) := by
  unfold Syncio.Buffer.getBuffer
  cases hp : s.pool.get with
  | mk b rest =>
    cases rest with
    | mk pool alloc => rfl

lemma Syncio.Buffer.flush_eq (s : Syncio.Buffer) :
    s.flush = if s.buf.Buffered = 0 then s else
      { s with
        buf := s.getBuffer.1
        pool := s.getBuffer.2.1.put s.buf.Reset
        bufferAllocs := s.getBuffer.2.2
        sink := s.sink ++ [s.buf.contents] } := by
  unfold Syncio.Buffer.flush
  split
  · rfl
  · cases hp : s.getBuffer with
    | mk b rest =>
      cases rest with
      | mk pool alloc => rfl

lemma Syncio.Buffer.flush_spec (s : Syncio.Buffer) (hinv : Syncio.Inv s) :
    Syncio.Inv s.flush
    ∧ s.flush.closed = s.closed
    ∧ s.flush.bufSize = s.bufSize
    ∧ s.flush.buf.Buffered = 0
    ∧ Syncio.sinkBytes s.flush = Syncio.sinkBytes s + s.buf.Buffered
    ∧ (s.buf.Buffered ≠ 0 → s.flush.sink = s.sink ++ [s.buf.contents]) := by
  obtain ⟨hn, hlen, hcap, hfree⟩ := hinv
  by_cases h0 : s.buf.Buffered = 0
  · rw [s.flush_eq, if_pos h0]
    unfold Internal.Buffer.Buffered at h0
    refine ⟨⟨hn, hlen, hcap, hfree⟩, rfl, rfl, h0, ?_, fun hne => absurd h0 hne⟩
    unfold Syncio.sinkBytes Internal.Buffer.Buffered
    omega
  · rw [s.flush_eq, if_neg h0, Syncio.Buffer.getBuffer_eq]
    have hget := s.pool.get_spec (by rw [hcap]; exact hfree)
    obtain ⟨hg0, hglen, hgfree, hgcap, _⟩ := hget
    have hput := (s.pool.get.2.1).put_spec s.buf.Reset
      (by show s.buf.buf.length = _; rw [hlen, hgcap, hcap])
      (by rw [hgcap]; exact hgfree)
    obtain ⟨hpfree, hpcap, _⟩ := hput
    have hclen : s.buf.contents.length = s.buf.n := by
      simp [Internal.Buffer.contents, Nat.min_eq_left hn]
    refine ⟨⟨?_, ?_, ?_, ?_⟩, rfl, rfl, ?_, ?_, fun _ => rfl⟩
    · show s.pool.get.1.n ≤ s.pool.get.1.buf.length
      omega
    · show s.pool.get.1.buf.length = s.bufSize
      rw [hglen, hcap]
    · show ((s.pool.get.2.1).put s.buf.Reset).bufcap = s.bufSize
      rw [hpcap, hgcap, hcap]
    · show ∀ b ∈ ((s.pool.get.2.1).put s.buf.Reset).free, b.n = 0 ∧ b.buf.length = s.bufSize
      intro b hb
      have := hpfree b hb
      rw [hgcap, hcap] at this
      exact this
    · show s.pool.get.1.Buffered = 0
      exact hg0
    · show Syncio.sinkBytes
        { s with
          buf := s.pool.get.1
          pool := (s.pool.get.2.1).put s.buf.Reset
          bufferAllocs := s.bufferAllocs + (if s.pool.get.2.2 then 1 else 0)
          sink := s.sink ++ [s.buf.contents] } = Syncio.sinkBytes s + s.buf.Buffered
      unfold Syncio.sinkBytes Internal.Buffer.Buffered
      simp [hclen]

lemma Internal.Buffer.write_ok_n (b : Internal.Buffer) (p : List Nat)
    (h : p.length ≤ b.Available) :
    (b.write p).buf.n = b.n + p.length := by
  rw [b.write_ok p h]

lemma Internal.Buffer.write_ok_length (b : Internal.Buffer) (p : List Nat)
    (h : p.length ≤ b.Available) :
    (b.write p).buf.buf.length = b.buf.length := by
  rw [b.write_ok p h]
  unfold Internal.Buffer.Available at h
  simp [List.length_take, List.length_drop]
  omega

lemma Syncio.bufferedTarget_spec (s : Syncio.Buffer) (p : List Nat)
    (hinv : Syncio.Inv s) (hsmall : p.length < s.bufSize) :
    Syncio.Inv (s.bufferedTarget p)
    ∧ (s.bufferedTarget p).closed = s.closed
    ∧ (s.bufferedTarget p).bufSize = s.bufSize
    ∧ p.length ≤ (s.bufferedTarget p).buf.Available
    ∧ Syncio.sinkBytes (s.bufferedTarget p) + (s.bufferedTarget p).buf.Buffered
        = Syncio.sinkBytes s + s.buf.Buffered
    ∧ (p.length > s.buf.Available → (s.bufferedTarget p).sink = s.sink ++ [s.buf.contents])
    ∧ (¬ p.length > s.buf.Available → s.bufferedTarget p = s) := by
  unfold Syncio.Buffer.bufferedTarget
  by_cases hc : p.length > s.buf.Available
  · rw [if_pos hc]
    have hne : s.buf.Buffered ≠ 0 := by
      unfold Internal.Buffer.Buffered
      unfold Internal.Buffer.Available at hc
      have h2 := hinv.2.1
      omega
    have hf := s.flush_spec hinv
    obtain ⟨finv, fc, fb, f0, fbytes, fsink⟩ := hf
    refine ⟨finv, fc, fb, ?_, ?_, fun _ => fsink hne, fun hn => absurd hc hn⟩
    · unfold Internal.Buffer.Available
      unfold Internal.Buffer.Buffered at f0
      have := finv.2.1
      rw [fb] at this
      omega
    · rw [fbytes, f0]
      omega
  · rw [if_neg hc]
    refine ⟨hinv, rfl, rfl, by omega, rfl, fun h => absurd h hc, fun _ => rfl⟩

lemma Syncio.Buffer.write_small_eq (s : Syncio.Buffer) (p : List Nat)
    (hopen : s.closed = false) (hsmall : p.length < s.bufSize) :
    s.write p = { state := { s.bufferedTarget p with
        buf := ((s.bufferedTarget p).buf.write p).buf }, n := p.length, err := none } := by
  unfold Syncio.Buffer.write
  rw [if_neg (by simp [hopen]), if_neg (by omega)]

/-! ### Claim theorems for the lock-based writer -/

/-- C2: on an open writer a payload no shorter than the configured buffer
size is dispatched directly: the write is accepted in full, exactly one
new sink call carrying exactly the bytes of `p` is dispatched, and the
current buffer and the pool are left untouched — `p` is never copied into
a pooled buffer nor mixed with buffered bytes. -/
theorem syncio_oversized_payload_direct (s : Syncio.Buffer) (p : List Nat)
    (hopen : s.closed = false) (hbig : p.length ≥ s.bufSize) :
    s.write p = { state := { s with sink := s.sink ++ [p] }, n := p.length, err := none } := by
  unfold Syncio.Buffer.write
  rw [if_neg (by simp [hopen]), if_pos hbig]

/-- Witness for C2: a 3-byte payload on a writer with 2-byte buffers. -/
theorem syncio_oversized_payload_direct_witness :
    ((Syncio.NewBuffer 2 2).write [1, 2, 3]).state.sink = [[1, 2, 3]]
    ∧ ((Syncio.NewBuffer 2 2).write [1, 2, 3]).err = none
    ∧ ((Syncio.NewBuffer 2 2).write [1, 2, 3]).state.buf
        = (Syncio.NewBuffer 2 2).buf := by
  have h := syncio_oversized_payload_direct (Syncio.NewBuffer 2 2) [1, 2, 3]
    (by decide) (by decide)
  rw [h]
  exact ⟨by decide, rfl, rfl⟩

/-- C3: on the buffered path (open writer, `len(p)` smaller than the
configured buffer size) the internal fixed buffer's capacity-exceeded
branch is unreachable: at the moment `buf.Write(p)` is invoked — that is,
after the flush that the routing performs when `len(p)` exceeds the
current available space — `len(p) ≤ Available()` holds and the internal
write returns no error. -/
theorem syncio_buffered_path_capacity_safe (s : Syncio.Buffer) (p : List Nat)
    (hinv : Syncio.Inv s) (_hopen : s.closed = false) (hsmall : p.length < s.bufSize) :
    p.length ≤ (s.bufferedTarget p).buf.Available
    ∧ ((s.bufferedTarget p).buf.write p).err = none := by
  have hle := (Syncio.bufferedTarget_spec s p hinv hsmall).2.2.2.1
  refine ⟨hle, ?_⟩
  rw [Internal.Buffer.write_ok _ p hle]

/-- Witness for C3: a payload that overflows the current buffer of a
concrete reachable writer state still lands in available space. -/
theorem syncio_buffered_path_capacity_safe_witness :
    ([1, 2, 3] : List Nat).length
        ≤ (({ buf := { buf := [9, 9, 9, 0], n := 3 },
              pool := { free := [], poolSize := 2, bufcap := 4 },
              closed := false, bufSize := 4, bufferAllocs := 1,
              sink := [] } : Syncio.Buffer).bufferedTarget [1, 2, 3]).buf.Available
    ∧ ((({ buf := { buf := [9, 9, 9, 0], n := 3 },
           pool := { free := [], poolSize := 2, bufcap := 4 },
           closed := false, bufSize := 4, bufferAllocs := 1,
           sink := [] } : Syncio.Buffer).bufferedTarget [1, 2, 3]).buf.write
        [1, 2, 3]).err = none :=
  syncio_buffered_path_capacity_safe
    { buf := { buf := [9, 9, 9, 0], n := 3 },
      pool := { free := [], poolSize := 2, bufcap := 4 },
      closed := false, bufSize := 4, bufferAllocs := 1, sink := [] }
    [1, 2, 3] (by decide) (by decide) (by decide)

/-- C6: under the always-accept policy, an open writer accepts every
payload shorter than the configured buffer size, returning
`(len(p), nil)`; when the payload exceeds the current available space a
flush is dispatched first (the current contents go to the sink and a
fresh buffer is installed) and the payload is then appended to the
current buffer; capacity is never a reason for rejection. -/
theorem syncio_always_accept_small_writes (s : Syncio.Buffer) (p : List Nat)
    (hinv : Syncio.Inv s) (hopen : s.closed = false) (hsmall : p.length < s.bufSize) :
    (s.write p).n = p.length ∧ (s.write p).err = none
    ∧ (p.length > s.buf.Available →
        (s.write p).state.sink = s.sink ++ [s.buf.contents])
    ∧ (s.write p).state.buf.contents = (s.bufferedTarget p).buf.contents ++ p := by
  rw [s.write_small_eq p hopen hsmall]
  have ht := Syncio.bufferedTarget_spec s p hinv hsmall
  refine ⟨rfl, rfl, fun hgt => ht.2.2.2.2.2.1 hgt, ?_⟩
  exact Internal.Buffer.contents_write_ok _ p ht.2.2.2.1

/-- Witness for C6: a 3-byte payload that overflows a writer whose 4-byte
buffer already holds 3 bytes is still accepted in full, after a flush of
the 3 buffered bytes. -/
theorem syncio_always_accept_small_writes_witness :
    (({ buf := { buf := [9, 8, 7, 0], n := 3 },
        pool := { free := [], poolSize := 2, bufcap := 4 },
        closed := false, bufSize := 4, bufferAllocs := 1,
        sink := [] } : Syncio.Buffer).write [1, 2, 3]).n = 3
    ∧ (({ buf := { buf := [9, 8, 7, 0], n := 3 },
          pool := { free := [], poolSize := 2, bufcap := 4 },
          closed := false, bufSize := 4, bufferAllocs := 1,
          sink := [] } : Syncio.Buffer).write [1, 2, 3]).err = none
    ∧ (({ buf := { buf := [9, 8, 7, 0], n := 3 },
          pool := { free := [], poolSize := 2, bufcap := 4 },
          closed := false, bufSize := 4, bufferAllocs := 1,
          sink := [] } : Syncio.Buffer).write [1, 2, 3]).state.sink = [[9, 8, 7]] := by
  have h := syncio_always_accept_small_writes
    { buf := { buf := [9, 8, 7, 0], n := 3 },
      pool := { free := [], poolSize := 2, bufcap := 4 },
      closed := false, bufSize := 4, bufferAllocs := 1, sink := [] }
    [1, 2, 3] (by decide) (by decide) (by decide)
  refine ⟨h.1, h.2.1, ?_⟩
  have hs := h.2.2.1 (by decide)
  rw [hs]
  decide

lemma Syncio.Buffer.write_preserves (s : Syncio.Buffer) (p : List Nat)
    (hinv : Syncio.Inv s) (hopen : s.closed = false) :
    Syncio.Inv (s.write p).state ∧ (s.write p).state.closed = false
    ∧ Syncio.sinkBytes (s.write p).state + (s.write p).state.buf.Buffered
        = Syncio.sinkBytes s + s.buf.Buffered + p.length := by
  by_cases hbig : p.length ≥ s.bufSize
  · unfold Syncio.Buffer.write
    rw [if_neg (by simp [hopen]), if_pos hbig]
    refine ⟨hinv, hopen, ?_⟩
    show Syncio.sinkBytes { s with sink := s.sink ++ [p] } + s.buf.Buffered
        = Syncio.sinkBytes s + s.buf.Buffered + p.length
    unfold Syncio.sinkBytes
    simp
    omega
  · push_neg at hbig
    rw [s.write_small_eq p hopen hbig]
    have ht := Syncio.bufferedTarget_spec s p hinv hbig
    obtain ⟨htinv, htc, htb, htle, htcons, _, _⟩ := ht
    obtain ⟨h1, h2, h3, h4⟩ := htinv
    have hwn := ((s.bufferedTarget p).buf).write_ok_n p htle
    have hwl := ((s.bufferedTarget p).buf).write_ok_length p htle
    refine ⟨⟨?_, ?_, ?_, ?_⟩, ?_, ?_⟩
    · show ((s.bufferedTarget p).buf.write p).buf.n
          ≤ ((s.bufferedTarget p).buf.write p).buf.buf.length
      rw [hwn, hwl]
      unfold Internal.Buffer.Available at htle
      omega
    · show ((s.bufferedTarget p).buf.write p).buf.buf.length = (s.bufferedTarget p).bufSize
      rw [hwl]
      exact h2
    · exact h3
    · exact h4
    · show (s.bufferedTarget p).closed = false
      rw [htc]
      exact hopen
    · show Syncio.sinkBytes (s.bufferedTarget p)
          + ((s.bufferedTarget p).buf.write p).buf.Buffered
          = Syncio.sinkBytes s + s.buf.Buffered + p.length
      unfold Internal.Buffer.Buffered at *
      rw [hwn]
      omega

lemma Syncio.Buffer.runWrites_cons (s : Syncio.Buffer) (p : List Nat)
    (rest : List (List Nat)) :
    s.runWrites (p :: rest) = ((s.write p).state).runWrites rest :=
  rfl

lemma Syncio.runWrites_spec (ps : List (List Nat)) :
    ∀ s : Syncio.Buffer, Syncio.Inv s → s.closed = false →
      Syncio.Inv (s.runWrites ps) ∧ (s.runWrites ps).closed = false
      ∧ Syncio.sinkBytes (s.runWrites ps) + (s.runWrites ps).buf.Buffered
          = Syncio.sinkBytes s + s.buf.Buffered + (ps.map List.length).sum := by
  induction ps with
  | nil =>
    intro s h hc
    exact ⟨h, hc, by simp [Syncio.Buffer.runWrites]⟩
  | cons p rest ih =>
    intro s h hc
    rw [s.runWrites_cons p rest]
    have hw := s.write_preserves p h hc
    rcases ih (s.write p).state hw.1 hw.2.1 with ⟨i1, i2, i3⟩
    refine ⟨i1, i2, ?_⟩
    have hcons := hw.2.2
    simp only [List.map_cons, List.sum_cons]
    omega

lemma Syncio.NewBuffer_inv (bufSize poolSize : Nat) :
    Syncio.Inv (Syncio.NewBuffer bufSize poolSize) := by
  unfold Syncio.Inv Syncio.NewBuffer Internal.NewBufferPool Internal.BufferPool.get
    Internal.newBuffer
  simp

/-! ### Claim theorems for the channel-based writer -/

/-- C7: under the non-blocking policy, a `Write` on an open
`asyncio.TickedBuffer` whose admission channel is full returns immediately
with 0 bytes and `ErrBlockingWrite`, discards the payload and increments
the dropped-write counter by exactly 1; when the channel has room the
write is enqueued and `(len(p), nil)` is returned. -/
theorem asyncio_nonblocking_drop_on_full_queue (s : Asyncio.TickedBuffer) (p : List Nat)
    (hopen : s.closed = false) :
    (s.queueSize ≤ s.data.length →
      s.write p =
        { state := { s with droppedWrites := s.droppedWrites + 1 }
          n := 0
          err := some "write was blocking" })
    ∧ (s.data.length < s.queueSize →
      s.write p =
        { state := { s with data := s.data ++ [p] }
          n := p.length
          err := none }) := by
  constructor
  · intro hfull
    unfold Asyncio.TickedBuffer.write
    rw [if_neg (by simp [hopen]), if_neg (by omega)]
  · intro hroom
    unfold Asyncio.TickedBuffer.write
    rw [if_neg (by simp [hopen]), if_pos hroom]

/-- Witness for C7: a full one-slot queue drops the write and counts it;
an empty one-slot queue accepts it. -/
theorem asyncio_nonblocking_drop_on_full_queue_witness :
    (({ closed := false, data := [[1]], queueSize := 1, droppedWrites := 0 }
        : Asyncio.TickedBuffer).write [2, 3]).err = some "write was blocking"
    ∧ (({ closed := false, data := [[1]], queueSize := 1, droppedWrites := 0 }
        : Asyncio.TickedBuffer).write [2, 3]).state.droppedWrites = 1
    ∧ (({ closed := false, data := [[1]], queueSize := 1, droppedWrites := 0 }
        : Asyncio.TickedBuffer).write [2, 3]).n = 0
    ∧ (({ closed := false, data := [], queueSize := 1, droppedWrites := 0 }
        : Asyncio.TickedBuffer).write [2, 3]).err = none
    ∧ (({ closed := false, data := [], queueSize := 1, droppedWrites := 0 }
        : Asyncio.TickedBuffer).write [2, 3]).n = 2 := by
  have h1 := (asyncio_nonblocking_drop_on_full_queue
    { closed := false, data := [[1]], queueSize := 1, droppedWrites := 0 }
    [2, 3] (by decide)).1 (by decide)
  have h2 := (asyncio_nonblocking_drop_on_full_queue
    { closed := false, data := [], queueSize := 1, droppedWrites := 0 }
    [2, 3] (by decide)).2 (by decide)
  exact ⟨by rw [h1], by rw [h1], by rw [h1], by rw [h2], by rw [h2]; rfl⟩

/-- C9 (counterexample): the claim asserts that a non-positive flush
interval yields a functioning writer with timer flushing disabled for
every writer variant; for the channel-based `TickedBuffer` it is false:
`listen` unconditionally calls `time.NewTicker(flushInterval)`, which
panics on a non-positive duration, so the background goroutine never
reaches its serving loop. -/
theorem asyncio_zero_interval_listen_panics :
    Asyncio.listenInit 0 ≠ Except.ok () := by
  unfold Asyncio.listenInit Go.newTicker
  simp

/-- C9 (amended): for the lock-based `syncio.Buffer` a non-positive flush
interval disables timer-based flushing — `NewBuffer` starts the ticker
goroutine only when the interval is positive, and neither `Write` nor
`Close` depends on the interval, so they behave normally with flushes
only on size overflow and at close; the channel-based
`asyncio.TickedBuffer`, however, panics in its `listen` goroutine because
`time.NewTicker` rejects non-positive durations. -/
theorem syncio_nonpositive_interval_disables_ticker (d : Int) (h : d ≤ 0) :
    Syncio.tickerStarted d = false
    ∧ Asyncio.listenInit d = Except.error "non-positive interval for NewTicker" := by
  constructor
  · unfold Syncio.tickerStarted
    simp only [decide_eq_false_iff_not]
    omega
  · unfold Asyncio.listenInit Go.newTicker
    rw [if_pos h]

/-- Witness for the amended C9 at interval 0. -/
theorem syncio_nonpositive_interval_disables_ticker_witness :
    Syncio.tickerStarted 0 = false
    ∧ Asyncio.listenInit 0 = Except.error "non-positive interval for NewTicker" :=
  syncio_nonpositive_interval_disables_ticker 0 (by decide)

lemma Asyncio.flusher_getBuffer_eq (f : Asyncio.Flusher) :
    f.getBuffer = (f.pool.get.1, f.pool.get.2.1,
      f.bufferAllocs + (if f.pool.get.2.2 then 1 else 0)) := by
  unfold Asyncio.Flusher.getBuffer
  cases hp : f.pool.get with
  | mk b rest =>
    cases rest with
    | mk pool alloc => rfl

lemma Asyncio.flusher_flush_eq (f : Asyncio.Flusher) :
    f.flush = if f.buf.Buffered = 0 then f else
      { f with
        buf := f.getBuffer.1
        pool := f.getBuffer.2.1.put f.buf.Reset
        bufferAllocs := f.getBuffer.2.2
        sink := f.sink ++ [f.buf.contents] } := by
  unfold Asyncio.Flusher.flush
  split
  · rfl
  · cases hp : f.getBuffer with
    | mk b rest =>
      cases rest with
      | mk pool alloc => rfl

lemma Asyncio.toSyncio_flush (f : Asyncio.Flusher) :
    (f.flush).toSyncio = (f.toSyncio).flush := by
  rw [Asyncio.flusher_flush_eq, Syncio.Buffer.flush_eq]
  by_cases h : f.buf.Buffered = 0
  · have h' : (f.toSyncio).buf.Buffered = 0 := h
    rw [if_pos h, if_pos h']
  · have h' : ¬ (f.toSyncio).buf.Buffered = 0 := h
    rw [if_neg h, if_neg h', Asyncio.flusher_getBuffer_eq, Syncio.Buffer.getBuffer_eq]
    rfl

lemma Asyncio.toSyncio_bufferedTarget (f : Asyncio.Flusher) (p : List Nat) :
    (f.bufferedTarget p).toSyncio = (f.toSyncio).bufferedTarget p := by
  unfold Asyncio.Flusher.bufferedTarget Syncio.Buffer.bufferedTarget
  by_cases h : p.length > f.buf.Available
  · have h' : p.length > (f.toSyncio).buf.Available := h
    rw [if_pos h, if_pos h']
    exact Asyncio.toSyncio_flush f
  · have h' : ¬ p.length > (f.toSyncio).buf.Available := h
    rw [if_neg h, if_neg h']

lemma Asyncio.toSyncio_handle (f : Asyncio.Flusher) (p : List Nat) :
    (f.handle p).toSyncio = ((f.toSyncio).write p).state := by
  unfold Asyncio.Flusher.handle Syncio.Buffer.write
  have hcl : ¬ (f.toSyncio).closed = true := by simp [Asyncio.Flusher.toSyncio]
  rw [if_neg hcl]
  by_cases h : p.length ≥ f.size
  · have h' : p.length ≥ (f.toSyncio).bufSize := h
    rw [if_pos h, if_pos h']
    rfl
  · have h' : ¬ p.length ≥ (f.toSyncio).bufSize := h
    rw [if_neg h, if_neg h']
    show ({ f.bufferedTarget p with
        buf := ((f.bufferedTarget p).buf.write p).buf } : Asyncio.Flusher).toSyncio
      = ({ (f.toSyncio).bufferedTarget p with
        buf := (((f.toSyncio).bufferedTarget p).buf.write p).buf } : Syncio.Buffer)
    rw [← Asyncio.toSyncio_bufferedTarget]
    rfl

lemma Asyncio.toSyncio_drainQueue (ps : List (List Nat)) :
    ∀ f : Asyncio.Flusher,
      (f.drainQueue ps).toSyncio = ((f.toSyncio).runWrites ps) := by
  induction ps with
  | nil => intro f; rfl
  | cons p rest ih =>
    intro f
    show ((f.handle p).drainQueue rest).toSyncio = _
    rw [ih (f.handle p), Asyncio.toSyncio_handle]
    rfl

lemma Asyncio.newFlusher_toSyncio_inv (bufSize poolSize : Nat) :
    Syncio.Inv (Asyncio.newFlusher bufSize poolSize).toSyncio := by
  unfold Syncio.Inv Asyncio.Flusher.toSyncio Asyncio.newFlusher Internal.NewBufferPool
    Internal.BufferPool.get Internal.newBuffer
  simp

/-- C1: for both writer variants, starting from a fresh writer, every
`Write` in the run is accepted (the writer stays open, and in the
channel-based variant every payload reaches the admission channel), and
after `Close` the total number of bytes dispatched to the never-failing
sink equals the sum of the lengths of the accepted payloads: no accepted
byte is lost and none is duplicated. -/
theorem close_conserves_all_accepted_bytes (bufSize poolSize : Nat)
    (ps : List (List Nat)) :
    Syncio.sinkBytes (((Syncio.NewBuffer bufSize poolSize).runWrites ps).close)
      = (ps.map List.length).sum
    ∧ Asyncio.flusherSinkBytes (Asyncio.listenClose bufSize poolSize ps)
      = (ps.map List.length).sum := by
  constructor
  · have h0 := Syncio.NewBuffer_inv bufSize poolSize
    have hc0 : (Syncio.NewBuffer bufSize poolSize).closed = false := rfl
    rcases Syncio.runWrites_spec ps (Syncio.NewBuffer bufSize poolSize) h0 hc0 with ⟨i1, _, i3⟩
    set s := (Syncio.NewBuffer bufSize poolSize).runWrites ps with hs
    have hinv' : Syncio.Inv { s with closed := true } := i1
    have hf := Syncio.Buffer.flush_spec { s with closed := true } hinv'
    have hbytes : Syncio.sinkBytes ({ s with closed := true } : Syncio.Buffer).flush
        = Syncio.sinkBytes { s with closed := true }
          + ({ s with closed := true } : Syncio.Buffer).buf.Buffered := hf.2.2.2.2.1
    show Syncio.sinkBytes ({ s with closed := true } : Syncio.Buffer).flush = _
    rw [hbytes]
    have hsb : Syncio.sinkBytes ({ s with closed := true } : Syncio.Buffer)
        = Syncio.sinkBytes s := rfl
    have hbb : ({ s with closed := true } : Syncio.Buffer).buf.Buffered
        = s.buf.Buffered := rfl
    rw [hsb, hbb]
    have hz1 : Syncio.sinkBytes (Syncio.NewBuffer bufSize poolSize) = 0 := rfl
    have hz2 : (Syncio.NewBuffer bufSize poolSize).buf.Buffered = 0 := rfl
    omega
  · have h0 := Asyncio.newFlusher_toSyncio_inv bufSize poolSize
    have hc0 : (Asyncio.newFlusher bufSize poolSize).toSyncio.closed = false := rfl
    rcases Syncio.runWrites_spec ps (Asyncio.newFlusher bufSize poolSize).toSyncio h0 hc0
      with ⟨i1, _, i3⟩
    have hsim := Asyncio.toSyncio_drainQueue ps (Asyncio.newFlusher bufSize poolSize)
    have hfl := Asyncio.toSyncio_flush ((Asyncio.newFlusher bufSize poolSize).drainQueue ps)
    have hkey : Asyncio.flusherSinkBytes (Asyncio.listenClose bufSize poolSize ps)
        = Syncio.sinkBytes
            (((Asyncio.newFlusher bufSize poolSize).toSyncio.runWrites ps).flush) := by
      unfold Asyncio.listenClose
      show Syncio.sinkBytes
          (((Asyncio.newFlusher bufSize poolSize).drainQueue ps).flush).toSyncio = _
      rw [hfl, hsim]
    rw [hkey]
    have hf := Syncio.Buffer.flush_spec _ i1
    have hbytes := hf.2.2.2.2.1
    rw [hbytes]
    have hz1 : Syncio.sinkBytes (Asyncio.newFlusher bufSize poolSize).toSyncio = 0 := rfl
    have hz2 : (Asyncio.newFlusher bufSize poolSize).toSyncio.buf.Buffered = 0 := rfl
    omega
